import Mathlib

/-!
Verification of the streaming chat-completion client in `src/lib/groq.ts`
of the AI-Study-Buddy repository.

Text is modelled as `List Char` (`Str`); a JavaScript string is a sequence
of characters at this level of abstraction.  Byte streams are modelled as
`List Nat` together with a model of `TextDecoder.decode` (WHATWG UTF-8
decoding with U+FFFD replacement, called once per chunk without the
`stream` flag, exactly as the source does).

The stream-processing loop of `getChatCompletion` (lines 108-154 of
`groq.ts`) is embedded as a state machine: `processLine` is the body of
the `for (const line of lines)` loop, `processChunk` is one iteration of
the `while (true)` read loop (append the decoded chunk to the line
buffer, split on newlines, keep the trailing partial line, process the
complete lines), and `runStream` is the whole loop followed by the final
"send any remaining chunks" flush.  `onChunk` callback invocations are
recorded in an `events` list in arrival order.

`JSON.parse` followed by the `data.choices[0]?.delta?.content` /
`finish_reason` navigation is abstracted as a function
`parse : Str -> Option StreamChunk`; a line on which the try-block throws
(malformed JSON, or navigation through `undefined`/`null`) is modelled by
`parse` returning `none`, which leaves the state unchanged, exactly like
the source's `catch`.  General theorems quantify over `parse`; a concrete
executable model `parseModel` (a small JSON parser plus the same
navigation) is used for closed, fully evaluated statements.
-/

namespace Groq

/-- JavaScript strings at the character level. -/
abbrev Str := List Char

/-- Whitespace recognised by `String.prototype.trim` (ASCII portion:
space, tab, newline, carriage return, vertical tab, form feed). -/
def isWsChar (c : Char) : Bool :=
  c = ' ' || c = '\t' || c = '\n' || c = '\x0d' || c = '\x0b' || c = '\x0c'

/-- Model of `line.trim()`: strip leading and trailing whitespace. -/
def trimStr (s : Str) : Str :=
  ((s.dropWhile isWsChar).reverse.dropWhile isWsChar).reverse

/-- The terminal sentinel line `data: [DONE]` (compared against the
trimmed line in the source, line 125). -/
def doneSentinel : Str := "data: [DONE]".toList

/-- The `data: ` tag stripped by `trimmedLine.replace(/^data: /, '')`:
the anchored regex removes one leading occurrence if present. -/
def dataTag : Str := "data: ".toList

/-- Model of `trimmedLine.replace(/^data: /, '')`. -/
def dropDataTag (s : Str) : Str :=
  if dataTag.isPrefixOf s then s.drop 6 else s

/-- One parsed `delta` of one element of the `choices` array: the
`delta.content` string when present and the `finish_reason` string when
it is a string (it is only ever compared with `'stop'`). -/
structure Choice where
  content : Option Str
  finishReason : Option Str
deriving DecidableEq, Repr

/-- The result of successfully parsing one `data:` line and navigating
its shape without a thrown exception (`StreamChunk` in `groq.ts`; the
`id`/`model`/`object` fields are never read by the source and are
omitted). -/
structure StreamChunk where
  choices : List Choice
deriving DecidableEq, Repr

/-- Model of `data.choices[0]?.delta?.content || ''` (line 131). -/
def contentOf (d : StreamChunk) : Str :=
  ((d.choices.head?).bind Choice.content).getD []

/-- Model of `data.choices[0].finish_reason === 'stop'` (line 135); only reached
when `content` is non-empty, hence `choices[0]` exists. -/
def stopFlag (d : StreamChunk) : Bool :=
  match d.choices.head? with
  | some c => c.finishReason = some ("stop".toList)
  | none => false

/-- The accumulator state of the read loop that `processLine` acts on:
`fullResponse`, `accumulatedChunks`, and the list of strings passed to
`onChunk` so far (in call order). -/
structure CoreState where
  fullResponse : Str
  accumulatedChunks : Str
  events : List Str
deriving DecidableEq, Repr

def initCore : CoreState := ⟨[], [], []⟩

/-- The body of `for (const line of lines)` (lines 123-145 of `groq.ts`):
trim; skip empty lines and the `[DONE]` sentinel (`continue`); strip the
`data: ` tag and parse; on parse/navigation failure skip the line
(`catch`); otherwise append the content to `accumulatedChunks` and, when
the accumulator reaches 4 characters or the record's `finish_reason` is
`'stop'`, emit it via `onChunk` and move it into `fullResponse`. -/
def processLine (parse : Str → Option StreamChunk) (st : CoreState) (line : Str) :
    CoreState :=
  let t := trimStr line
  if t = [] ∨ t = doneSentinel then st
  else
    match parse (dropDataTag t) with
    | none => st
    | some d =>
      let content := contentOf d
      if content = [] then st
      else
        let acc := st.accumulatedChunks ++ content
        if 4 ≤ acc.length ∨ stopFlag d then
          { fullResponse := st.fullResponse ++ acc,
            accumulatedChunks := [],
            events := st.events ++ [acc] }
        else
          { st with accumulatedChunks := acc }

/-- Model of `buffer.split('\n')`: split a string on newline characters; always
returns at least one (possibly empty) piece. -/
def splitOnNl : Str → List Str
  | [] => [[]]
  | c :: rest =>
    if c = '\n' then [] :: splitOnNl rest
    else (splitOnNl rest).modifyHead (c :: ·)

/-- The full loop state: the cross-chunk line `buffer` plus the
accumulator state. -/
structure AssemblyState where
  buffer : Str
  core : CoreState
deriving DecidableEq, Repr

def initState : AssemblyState := ⟨[], initCore⟩

/-- One iteration of the `while (true)` read loop for one decoded text
chunk (lines 117-145): append the chunk to the line buffer, split on
newlines, retain the trailing partial line (`buffer = lines.pop()`),
and process every complete line in order. -/
def processChunk (parse : Str → Option StreamChunk) (st : AssemblyState)
    (chunk : Str) : AssemblyState :=
  let pieces := splitOnNl (st.buffer ++ chunk)
  { buffer := pieces.getLastD [],
    core := pieces.dropLast.foldl (processLine parse) st.core }

/-- The "send any remaining chunks" block after the loop (lines 149-152):
a final unconditional flush of a non-empty accumulator.  (The source does
not reset `accumulatedChunks` here; the function returns immediately
after.) -/
def finalFlush (st : CoreState) : CoreState :=
  if st.accumulatedChunks = [] then st
  else
    { st with fullResponse := st.fullResponse ++ st.accumulatedChunks,
              events := st.events ++ [st.accumulatedChunks] }

/-- Error taxonomy of `getChatCompletion`, distinguished in the source by
the three distinct `throw` sites: non-ok HTTP status (line 97), missing
response body (line 105), and a rethrown mid-stream read error
(line 157). -/
inductive ErrKind where
  | connectionError
  | noResponseBody
  | streamReadError
deriving DecidableEq, Repr

/-- Observable outcome of one call: either the promise resolves with
`fullResponse` after the `onChunk` calls listed in `events`, or it
rejects after the `onChunk` calls listed in `events`. -/
inductive StreamOutcome where
  | success (fullResponse : Str) (events : List Str)
  | failure (kind : ErrKind) (events : List Str)
deriving DecidableEq, Repr

def fullOf : StreamOutcome → Str
  | .success f _ => f
  | .failure _ _ => []

def eventsOf : StreamOutcome → List Str
  | .success _ e => e
  | .failure _ e => e

/-- The read loop over a list of decoded text chunks.  `midErr = false`:
the reader eventually reports `done`, the trailing partial line in
`buffer` is discarded, and the final flush runs.  `midErr = true`: after
the given chunks, `reader.read()` (or the decode) throws; the exception
propagates past the final-flush block (which sits inside `try` after the
loop) to the `catch`, which rethrows, so the promise rejects with no
further `onChunk` call. -/
def runStream (parse : Str → Option StreamChunk) (chunks : List Str)
    (midErr : Bool) : StreamOutcome :=
  let st := chunks.foldl (processChunk parse) initState
  if midErr then .failure .streamReadError st.core.events
  else .success (finalFlush st.core).fullResponse (finalFlush st.core).events

/-- The HTTP response handed back by `fetch`, reduced to what the source
inspects: `response.ok`, whether `response.body` yields a reader, and the
decoded text chunks the reader will deliver. -/
structure GroqResponse where
  ok : Bool
  hasBody : Bool
  chunks : List Str
deriving DecidableEq, Repr

/-- Model of `getChatCompletion` from the response onward (lines 95-158): a non-ok
status throws before the body is read; a missing body throws before the
loop; otherwise the stream is processed. -/
def getChatCompletion (parse : Str → Option StreamChunk) (resp : GroqResponse)
    (midErr : Bool) : StreamOutcome :=
  if resp.ok = false then .failure .connectionError []
  else if resp.hasBody = false then .failure .noResponseBody []
  else runStream parse resp.chunks midErr

/-- Model of `getCompletionSync` (lines 164-175): concatenates every `onChunk`
argument into `result` and returns it when the awaited promise resolves;
if the promise rejects, the `await` rethrows and no string is returned. -/
def getCompletionSync (parse : Str → Option StreamChunk) (resp : GroqResponse)
    (midErr : Bool) : Option Str :=
  match getChatCompletion parse resp midErr with
  | .success _ evs => some (evs.foldl (· ++ ·) [])
  | .failure _ _ => none

/-- The net contribution of one complete line to
`fullResponse ++ accumulatedChunks`: empty for skipped, sentinel,
malformed, or content-less lines, and the extracted content otherwise. -/
def lineContrib (parse : Str → Option StreamChunk) (l : Str) : Str :=
  let t := trimStr l
  if t = [] ∨ t = doneSentinel then []
  else
    match parse (dropDataTag t) with
    | none => []
    | some d => contentOf d

/-- Text extracted from the wire so far, flushed or not. -/
def pendingText (c : CoreState) : Str :=
  c.fullResponse ++ c.accumulatedChunks

/-- Proof device: feeding the loop one character at a time.  A newline
closes the current buffered line and runs `processLine` on it; any other
character is appended to the buffer.  `processChunk` is proved equal to
folding `feedChar` over the chunk. -/
def feedChar (parse : Str → Option StreamChunk) (st : AssemblyState) (c : Char) :
    AssemblyState :=
  if c = '\n' then ⟨[], processLine parse st.core st.buffer⟩
  else ⟨st.buffer ++ [c], st.core⟩

/-- A list of lines encoded as the wire text: each line followed by a
newline terminator. -/
def encodeLines : List Str → Str
  | [] => []
  | l :: ls => l ++ '\n' :: encodeLines ls

/-- Concatenation of a list of chunks into the whole transmitted text. -/
def chunksJoin (chunks : List Str) : Str := chunks.flatten

/-! ### A concrete model of `JSON.parse` plus the source's navigation

Used to close general theorems on explicit inputs.  Numbers are kept as
their lexemes (the source never reads a numeric value); `\uXXXX` escapes
decode a single code unit without surrogate pairing; the number lexer is
lenient.  None of these corners is exercised by the concrete inputs
below, on which the model agrees with `JSON.parse`. -/

/-- JSON values. -/
inductive JsonVal where
  | null
  | bool (b : Bool)
  | num (lexeme : Str)
  | str (s : Str)
  | arr (items : List JsonVal)
  | obj (fields : List (Str × JsonVal))

/-- JSON insignificant whitespace. -/
def skipJsonWs (s : Str) : Str :=
  s.dropWhile (fun c => c = ' ' || c = '\t' || c = '\n' || c = '\x0d')

def hexVal (c : Char) : Option Nat :=
  if '0' ≤ c ∧ c ≤ '9' then some (c.toNat - 48)
  else if 'a' ≤ c ∧ c ≤ 'f' then some (c.toNat - 87)
  else if 'A' ≤ c ∧ c ≤ 'F' then some (c.toNat - 55)
  else none

/-- Decode the escape that follows a backslash inside a JSON string. -/
def unescapeChar : Str → Option (Char × Str)
  | [] => none
  | e :: rest =>
    if e = '"' then some ('"', rest)
    else if e = '\\' then some ('\\', rest)
    else if e = '/' then some ('/', rest)
    else if e = 'b' then some ('\x08', rest)
    else if e = 'f' then some ('\x0c', rest)
    else if e = 'n' then some ('\n', rest)
    else if e = 'r' then some ('\x0d', rest)
    else if e = 't' then some ('\t', rest)
    else if e = 'u' then
      match rest with
      | h1 :: h2 :: h3 :: h4 :: rest4 =>
        match hexVal h1, hexVal h2, hexVal h3, hexVal h4 with
        | some a, some b, some c, some d =>
          some (Char.ofNat (a * 4096 + b * 256 + c * 16 + d), rest4)
        | _, _, _, _ => none
      | _ => none
    else none

/-- Body of a JSON string after the opening quote; returns the decoded
content and the text following the closing quote.  Fueled. -/
def parseJsonString : Nat → Str → Option (Str × Str)
  | 0, _ => none
  | _, [] => none
  | fuel + 1, c :: rest =>
    if c = '"' then some ([], rest)
    else if c = '\\' then
      match unescapeChar rest with
      | none => none
      | some (ch, rest2) =>
        match parseJsonString fuel rest2 with
        | none => none
        | some sr => some (ch :: sr.1, sr.2)
    else
      match parseJsonString fuel rest with
      | none => none
      | some sr => some (c :: sr.1, sr.2)

/-- Characters that may appear in a JSON number lexeme. -/
def isNumChar (c : Char) : Bool :=
  ('0' ≤ c ∧ c ≤ '9') || c = '-' || c = '+' || c = '.' || c = 'e' || c = 'E'

mutual

/-- Parse one JSON value; returns it and the remaining text. -/
def parseJsonVal : Nat → Str → Option (JsonVal × Str)
  | 0, _ => none
  | fuel + 1, s =>
    match skipJsonWs s with
    | [] => none
    | c :: rest =>
      if c = '"' then
        match parseJsonString (rest.length + 1) rest with
        | some sr => some (.str sr.1, sr.2)
        | none => none
      else if c = Char.ofNat 123 then
        match skipJsonWs rest with
        | d :: r2 =>
          if d = Char.ofNat 125 then some (.obj [], r2)
          else
            match parseJsonFields fuel (d :: r2) with
            | some fr => some (.obj fr.1, fr.2)
            | none => none
        | [] => none
      else if c = '[' then
        match skipJsonWs rest with
        | d :: r2 =>
          if d = ']' then some (.arr [], r2)
          else
            match parseJsonItems fuel (d :: r2) with
            | some ir => some (.arr ir.1, ir.2)
            | none => none
        | [] => none
      else if c = 't' then
        if ("rue".toList).isPrefixOf rest then some (.bool true, rest.drop 3)
        else none
      else if c = 'f' then
        if ("alse".toList).isPrefixOf rest then some (.bool false, rest.drop 4)
        else none
      else if c = 'n' then
        if ("ull".toList).isPrefixOf rest then some (.null, rest.drop 3)
        else none
      else if c = '-' ∨ ('0' ≤ c ∧ c ≤ '9') then
        let lex := (c :: rest).takeWhile isNumChar
        some (.num lex, (c :: rest).drop lex.length)
      else none

/-- Parse the fields of a JSON object after its opening brace (first
field onward); consumes through the closing brace. -/
def parseJsonFields : Nat → Str → Option (List (Str × JsonVal) × Str)
  | 0, _ => none
  | fuel + 1, s =>
    match skipJsonWs s with
    | '"' :: rest =>
      match parseJsonString (rest.length + 1) rest with
      | none => none
      | some kr =>
        match skipJsonWs kr.2 with
        | ':' :: r2 =>
          match parseJsonVal fuel r2 with
          | none => none
          | some vr =>
            match skipJsonWs vr.2 with
            | ',' :: r3 =>
              match parseJsonFields fuel r3 with
              | none => none
              | some fr => some ((kr.1, vr.1) :: fr.1, fr.2)
            | d :: r3 =>
              if d = Char.ofNat 125 then some ([(kr.1, vr.1)], r3) else none
            | [] => none
        | _ => none
    | _ => none

/-- Parse the items of a JSON array after its opening bracket (first
item onward); consumes through the closing bracket. -/
def parseJsonItems : Nat → Str → Option (List JsonVal × Str)
  | 0, _ => none
  | fuel + 1, s =>
    match parseJsonVal fuel s with
    | none => none
    | some vr =>
      match skipJsonWs vr.2 with
      | ',' :: r2 =>
        match parseJsonItems fuel r2 with
        | none => none
        | some ir => some (vr.1 :: ir.1, ir.2)
      | ']' :: r2 => some ([vr.1], r2)
      | _ => none

end

/-- Model of `JSON.parse`: one value, nothing but whitespace after it. -/
def jsonParse (s : Str) : Option JsonVal :=
  match parseJsonVal (s.length + 2) s with
  | some vr => if skipJsonWs vr.2 = [] then some vr.1 else none
  | none => none

/-- Object property lookup; with duplicate keys the last wins, as in a
JavaScript object literal. -/
def getField (fs : List (Str × JsonVal)) (k : Str) : Option JsonVal :=
  (fs.filterMap (fun p => if p.1 = k then some p.2 else none)).getLast?

/-- One element of the `choices` array as navigated by
`choices[0]?.delta?.content` / `choices[0].finish_reason`: `content` is
kept only when `delta` is an object whose `content` is a string, and
`finish_reason` only when it is a string. -/
def asChoice (v : JsonVal) : Choice :=
  match v with
  | .obj fs =>
    { content :=
        match getField fs ("delta".toList) with
        | some (.obj ds) =>
          match getField ds ("content".toList) with
          | some (.str s) => some s
          | _ => none
        | _ => none,
      finishReason :=
        match getField fs ("finish_reason".toList) with
        | some (.str s) => some s
        | _ => none }
  | _ => ⟨none, none⟩

/-- Navigation of the parsed value, with `none` exactly where the source
would throw inside the `try` block: `data` not an object (including
`null`), `choices` absent, or `choices` itself `null`.  A `choices`
value of another non-array type indexes to nothing and behaves like an
empty array. -/
def asChunk (v : JsonVal) : Option StreamChunk :=
  match v with
  | .obj fs =>
    match getField fs ("choices".toList) with
    | some (.arr items) => some ⟨items.map asChoice⟩
    | some .null => none
    | some _ => some ⟨[]⟩
    | none => none
  | _ => none

/-- The concrete model of `JSON.parse(jsonStr) as StreamChunk` followed
by the field navigation; `none` wherever the try-block throws. -/
def parseModel (s : Str) : Option StreamChunk :=
  (jsonParse s).bind asChunk

/-! ### `TextDecoder` model

The source calls `decoder.decode(value)` on every chunk *without* the
`stream: true` option (line 117), so each chunk is decoded independently
and a multi-byte UTF-8 sequence straddling a chunk boundary is replaced
by U+FFFD replacement characters. -/

/-- The U+FFFD replacement character. -/
def replChar : Char := Char.ofNat 0xFFFD

/-- Is `b` a UTF-8 continuation byte `10xxxxxx`? -/
def isCont (b : Nat) : Bool := 0x80 ≤ b ∧ b ≤ 0xBF

/-- WHATWG UTF-8 decoding with replacement: one `TextDecoder.decode`
call on one complete chunk.  Invalid or truncated sequences yield
U+FFFD and decoding resumes at the offending byte. -/
def decodeUtf8 : List Nat → List Char
  | [] => []
  | b :: rest =>
    if b ≤ 0x7F then Char.ofNat b :: decodeUtf8 rest
    else if b < 0xC2 then replChar :: decodeUtf8 rest
    else if b ≤ 0xDF then
      match rest with
      | [] => [replChar]
      | b2 :: rest2 =>
        if isCont b2 then
          Char.ofNat ((b - 0xC0) * 0x40 + (b2 - 0x80)) :: decodeUtf8 rest2
        else replChar :: decodeUtf8 (b2 :: rest2)
    else if b ≤ 0xEF then
      match rest with
      | [] => [replChar]
      | b2 :: rest2 =>
        if (if b = 0xE0 then decide (0xA0 ≤ b2 ∧ b2 ≤ 0xBF)
            else if b = 0xED then decide (0x80 ≤ b2 ∧ b2 ≤ 0x9F)
            else isCont b2) then
          match rest2 with
          | [] => [replChar]
          | b3 :: rest3 =>
            if isCont b3 then
              Char.ofNat ((b - 0xE0) * 0x1000 + (b2 - 0x80) * 0x40 + (b3 - 0x80)) ::
                decodeUtf8 rest3
            else replChar :: decodeUtf8 (b3 :: rest3)
        else replChar :: decodeUtf8 (b2 :: rest2)
    else if b ≤ 0xF4 then
      match rest with
      | [] => [replChar]
      | b2 :: rest2 =>
        if (if b = 0xF0 then decide (0x90 ≤ b2 ∧ b2 ≤ 0xBF)
            else if b = 0xF4 then decide (0x80 ≤ b2 ∧ b2 ≤ 0x8F)
            else isCont b2) then
          match rest2 with
          | [] => [replChar]
          | b3 :: rest3 =>
            if isCont b3 then
              match rest3 with
              | [] => [replChar]
              | b4 :: rest4 =>
                if isCont b4 then
                  Char.ofNat ((b - 0xF0) * 0x40000 + (b2 - 0x80) * 0x1000 +
                      (b3 - 0x80) * 0x40 + (b4 - 0x80)) :: decodeUtf8 rest4
                else replChar :: decodeUtf8 (b4 :: rest4)
            else replChar :: decodeUtf8 (b3 :: rest3)
        else replChar :: decodeUtf8 (b2 :: rest2)
    else replChar :: decodeUtf8 rest

/-- The read loop over raw byte chunks: each chunk is independently
decoded (`decoder.decode(value)` without the `stream` flag) and then
processed as text. -/
def runStreamBytes (parse : Str → Option StreamChunk) (bchunks : List (List Nat))
    (midErr : Bool) : StreamOutcome :=
  runStream parse (bchunks.map decodeUtf8) midErr

/-! ### Request-message assembly (lines 64-77 of `groq.ts`) -/

inductive Role where
  | user
  | assistant
  | system
deriving DecidableEq, Repr

structure ChatMessage where
  role : Role
  content : Str
deriving DecidableEq, Repr

/-- The options record, reduced to the fields the assembly reads.
`temperature`/`maxTokens`/`model` are forwarded to the request body
unchanged and never influence message assembly. -/
structure CompletionOptions where
  systemPrompt : Option Str := none
deriving DecidableEq, Repr

/-- Text of `defaultOptions.systemPrompt` (lines 33-43): a template literal whose
continuation lines carry the source file's two-space indentation. -/
def defaultSystemPrompt : Str :=
  ("You are an engaging and adaptive AI study buddy. Guidelines:\n" ++
   "  - Be natural and conversational\n" ++
   "  - Never show formatting instructions or meta-text\n" ++
   "  - Never start responses with \"AI:\" or similar prefixes\n" ++
   "  - Don't show asterisks (*) or formatting markers\n" ++
   "  - Don't describe your actions in text\n" ++
   "  - If the user is inactive, don't suggest follow-up messages\n" ++
   "  - Keep responses focused on the user's questions and learning goals\n" ++
   "  - Use emojis naturally but don't overdo it\n" ++
   "  - Always respond directly to what the user says\n" ++
   "  - Stay in character as a helpful study buddy").toList

/-- The alternatives of the regex `/^(hi|hello|hey|greetings|sup)/i`. -/
def greetWords : List Str :=
  [("hi".toList), ("hello".toList), ("hey".toList), ("greetings".toList),
   ("sup".toList)]

/-- ASCII case folding, matching the case-insensitive regex flag on
these all-ASCII alternatives. -/
def lowerStr (s : Str) : Str := s.map Char.toLower

/-- Model of the test
`messages.length === 1 && /^(hi|hello|hey|greetings|sup)/i.test(messages[0].content)`
(line 67): a single message whose content starts, case-insensitively,
with one of the greeting words. -/
def isGreetingMsg : List ChatMessage → Bool
  | [m] => greetWords.any (fun w => w.isPrefixOf (lowerStr m.content))
  | _ => false

/-- The replacement system prompt used for greetings (line 70). -/
def greetingPrompt : Str := "Respond with a greeting.".toList

/-- Lines 64-77: choose the system message (greeting heuristic versus the
configured prompt, which is the caller's `systemPrompt` option when given
and the default otherwise), prepend it, and trim every message's content
via the `.map` over `[systemMessage, ...messages]`. -/
def buildApiMessages (messages : List ChatMessage) (options : CompletionOptions) :
    List ChatMessage :=
  let sysPrompt := options.systemPrompt.getD defaultSystemPrompt
  let sysMsg : ChatMessage :=
    ⟨.system, if isGreetingMsg messages then greetingPrompt else sysPrompt⟩
  (sysMsg :: messages).map (fun m => ⟨m.role, trimStr m.content⟩)

/-! ### Concrete wire-format inputs used in closed statements -/

/-- Text `data: {"choices":[{"delta":{"content":"` -/
def recPre : Str :=
  "data: \x7b\"choices\":[\x7b\"delta\":\x7b\"content\":\"".toList

/-- Text `"},"index":0,"finish_reason":` -/
def recMid : Str := "\"\x7d,\"index\":0,\"finish_reason\":".toList

/-- Text `}]}` -/
def recEnd : Str := "\x7d]\x7d".toList

/-- A well-formed `data:` record line carrying the given (escape-free)
content and `finish_reason` JSON text. -/
def mkRecordLine (content finish : Str) : Str :=
  recPre ++ content ++ recMid ++ finish ++ recEnd

def nullFinish : Str := "null".toList

def stopFinish : Str := "\"stop\"".toList

/-- The line `data: {"choices":[{"delta":{"content":"Hi"},"index":0,"finish_reason":null}]}` -/
def lineHi : Str := mkRecordLine ("Hi".toList) nullFinish

/-- The line `data: {"choices":[{"delta":{"content":" there"},"index":0,"finish_reason":"stop"}]}` -/
def lineThere : Str := mkRecordLine (" there".toList) stopFinish

/-- A record line carrying a single-character fragment and no stop
signal. -/
def fragLine (c : Char) : Str := mkRecordLine [c] nullFinish

/-- A record line with four characters of content, enough to trigger the
threshold flush on its own. -/
def lineWow : Str := mkRecordLine ("Wow!".toList) nullFinish

/-- A malformed record line (`data: {oops`): `JSON.parse` throws on it. -/
def lineBad : Str := "data: \x7boops".toList

/-- Five record lines carrying the single-character fragments
`"a","b","c","d","e"`, none with a stop signal. -/
def fiveFragLines : List Str :=
  [fragLine 'a', fragLine 'b', fragLine 'c', fragLine 'd', fragLine 'e']

/-- UTF-8 bytes of a record line (newline included) whose content is the
single two-byte character U+00E9; every other byte is ASCII. -/
def accentLineBytes : List Nat :=
  recPre.map Char.toNat ++ [0xC3, 0xA9] ++
    (recMid ++ nullFinish ++ recEnd ++ ['\n']).map Char.toNat

/-- An all-ASCII byte stream: the three-line `Hi` / `" there"` / `[DONE]`
exchange. -/
def asciiStreamBytes : List Nat :=
  (encodeLines [lineHi, lineThere, doneSentinel]).map Char.toNat

/-- A well-formed `DataRecord` line for an abstract `parse`: it is a
single line (no embedded newline), survives trimming, is not the
sentinel, and parses to the record `d`. -/
def validLine (parse : Str → Option StreamChunk) (l : Str) (d : StreamChunk) :
    Prop :=
  '\n' ∉ l ∧ trimStr l ≠ [] ∧ trimStr l ≠ doneSentinel ∧
    parse (dropDataTag (trimStr l)) = some d

/-! ## Lemmas about `splitOnNl` -/

theorem splitOnNl_ne_nil (s : Str) : splitOnNl s ≠ [] := by
  induction s with
  | nil => simp [splitOnNl]
  | cons c rest ih =>
    simp only [splitOnNl]
    split
    · simp
    · cases h : splitOnNl rest with
      | nil => exact absurd h ih
      | cons l ls => simp [List.modifyHead]

theorem splitOnNl_of_no_nl {s : Str} (h : '\n' ∉ s) : splitOnNl s = [s] := by
  induction s with
  | nil => rfl
  | cons c rest ih =>
    simp only [List.mem_cons, not_or] at h
    have hc : ¬c = '\n' := fun hh => h.1 hh.symm
    simp only [splitOnNl, if_neg hc, ih h.2, List.modifyHead]

theorem splitOnNl_append_newline {s : Str} (t : Str) (h : '\n' ∉ s) :
    splitOnNl (s ++ '\n' :: t) = s :: splitOnNl t := by
  induction s with
  | nil => simp [splitOnNl]
  | cons c rest ih =>
    simp only [List.mem_cons, not_or] at h
    have hc : ¬c = '\n' := fun hh => h.1 hh.symm
    simp only [List.cons_append, splitOnNl, if_neg hc, List.append_eq,
      ih h.2, List.modifyHead]

/-! ## `processChunk` as a character-by-character fold -/

theorem foldl_feedChar_no_nl (parse : Str → Option StreamChunk) {l : Str}
    (h : '\n' ∉ l) (b : Str) (c : CoreState) :
    l.foldl (feedChar parse) ⟨b, c⟩ = ⟨b ++ l, c⟩ := by
  induction l generalizing b with
  | nil => simp
  | cons x xs ih =>
    simp only [List.mem_cons, not_or] at h
    have hx : ¬x = '\n' := fun hh => h.1 hh.symm
    rw [List.foldl_cons]
    have hfeed : feedChar parse ⟨b, c⟩ x = ⟨b ++ [x], c⟩ := by
      simp [feedChar, hx]
    rw [hfeed, ih h.2 (b ++ [x])]
    simp

theorem processChunk_eq_foldl_feedChar (parse : Str → Option StreamChunk)
    (chunk : Str) (st : AssemblyState) (h : '\n' ∉ st.buffer) :
    processChunk parse st chunk = chunk.foldl (feedChar parse) st := by
  induction chunk generalizing st with
  | nil =>
    simp only [processChunk, List.append_nil, splitOnNl_of_no_nl h,
      List.dropLast, List.foldl_nil]
    cases st with
    | mk b c => rfl
  | cons c cs ih =>
    by_cases hc : c = '\n'
    · subst hc
      rw [List.foldl_cons]
      have hfeed : feedChar parse st '\n' =
          ⟨[], processLine parse st.core st.buffer⟩ := by
        simp [feedChar]
      rw [hfeed, ← ih ⟨[], processLine parse st.core st.buffer⟩ (by simp)]
      simp only [processChunk]
      rw [splitOnNl_append_newline cs h]
      cases hs : splitOnNl cs with
      | nil => exact absurd hs (splitOnNl_ne_nil cs)
      | cons p ps =>
        simp only [List.nil_append]
        rw [hs, List.getLastD_cons, List.getLastD_cons, List.getLastD_cons,
          List.dropLast_cons₂, List.foldl_cons]
    · rw [List.foldl_cons]
      have hfeed : feedChar parse st c = ⟨st.buffer ++ [c], st.core⟩ := by
        simp [feedChar, hc]
      rw [hfeed, ← ih ⟨st.buffer ++ [c], st.core⟩ ?hnb]
      case hnb =>
        simp only [List.mem_append, not_or, List.mem_singleton]
        exact ⟨h, fun he => hc he.symm⟩
      simp only [processChunk, List.append_assoc, List.singleton_append]

theorem mem_getLastD {l : List Str} (h : l ≠ []) : l.getLastD [] ∈ l := by
  induction l with
  | nil => exact absurd rfl h
  | cons a as ih =>
    cases has : as with
    | nil => simp [List.getLastD]
    | cons b bs =>
      subst has
      rw [List.getLastD_cons]
      have hmem := ih (by simp)
      rw [List.getLastD_cons] at hmem ⊢
      exact List.mem_cons.mpr (Or.inr hmem)

theorem mem_splitOnNl_no_nl {s : Str} {p : Str} (h : p ∈ splitOnNl s) :
    '\n' ∉ p := by
  induction s generalizing p with
  | nil =>
    simp only [splitOnNl, List.mem_singleton] at h
    subst h; simp
  | cons c rest ih =>
    simp only [splitOnNl] at h
    split at h
    · rcases List.mem_cons.mp h with h | h
      · subst h; simp
      · exact ih h
    · next hc =>
      cases hs : splitOnNl rest with
      | nil => exact absurd hs (splitOnNl_ne_nil rest)
      | cons q qs =>
        rw [hs, List.modifyHead] at h
        rcases List.mem_cons.mp h with h | h
        · subst h
          have hq : '\n' ∉ q := ih (hs ▸ List.mem_cons_self q qs)
          simp only [List.mem_cons, not_or]
          exact ⟨fun he => hc he.symm, hq⟩
        · exact ih (hs ▸ List.mem_cons.mpr (Or.inr h))

theorem processChunk_buffer_no_nl (parse : Str → Option StreamChunk)
    (st : AssemblyState) (chunk : Str) :
    '\n' ∉ (processChunk parse st chunk).buffer := by
  simp only [processChunk]
  exact mem_splitOnNl_no_nl
    (mem_getLastD (splitOnNl_ne_nil (st.buffer ++ chunk)))

theorem foldl_processChunk_eq (parse : Str → Option StreamChunk)
    (chunks : List Str) (st : AssemblyState) (h : '\n' ∉ st.buffer) :
    chunks.foldl (processChunk parse) st = processChunk parse st (chunksJoin chunks) := by
  induction chunks generalizing st with
  | nil =>
    simp only [List.foldl_nil, chunksJoin, List.flatten_nil]
    rw [processChunk_eq_foldl_feedChar parse [] st h]
    simp
  | cons c cs ih =>
    rw [List.foldl_cons, ih (processChunk parse st c)
      (processChunk_buffer_no_nl parse st c)]
    rw [processChunk_eq_foldl_feedChar parse c st h,
      processChunk_eq_foldl_feedChar parse (chunksJoin cs) _
        (by rw [← processChunk_eq_foldl_feedChar parse c st h]
            exact processChunk_buffer_no_nl parse st c),
      processChunk_eq_foldl_feedChar parse (chunksJoin (c :: cs)) st h]
    show _ = (c ++ chunksJoin cs).foldl (feedChar parse) st
    rw [List.foldl_append]

/-- Chunking invariance at the decoded-text level: the loop state depends
only on the concatenation of the delivered chunks. -/
theorem runStream_chunks_join (parse : Str → Option StreamChunk)
    (c1 c2 : List Str) (e : Bool) (h : chunksJoin c1 = chunksJoin c2) :
    runStream parse c1 e = runStream parse c2 e := by
  simp only [runStream]
  rw [foldl_processChunk_eq parse c1 initState (by simp [initState]),
    foldl_processChunk_eq parse c2 initState (by simp [initState]), h]

/-! ## Processing a stream of complete lines -/

theorem foldl_feedChar_encodeLines (parse : Str → Option StreamChunk)
    (ls : List Str) (c : CoreState) (h : ∀ l ∈ ls, '\n' ∉ l) :
    (encodeLines ls).foldl (feedChar parse) ⟨[], c⟩ =
      ⟨[], ls.foldl (processLine parse) c⟩ := by
  induction ls generalizing c with
  | nil => simp [encodeLines]
  | cons l ls ih =>
    have hl : '\n' ∉ l := h l (List.mem_cons_self l ls)
    simp only [encodeLines, List.foldl_cons]
    rw [show l ++ '\n' :: encodeLines ls = (l ++ ['\n']) ++ encodeLines ls by
      simp, List.foldl_append, List.foldl_append,
      foldl_feedChar_no_nl parse hl [] c]
    simp only [List.foldl_cons, List.foldl_nil]
    have hfeed : feedChar parse ⟨[] ++ l, c⟩ '\n' =
        ⟨[], processLine parse c l⟩ := by
      simp [feedChar]
    rw [hfeed, ih (processLine parse c l) (fun x hx => h x (List.mem_cons_of_mem l hx))]

/-- Delivering a list of newline-terminated lines runs `processLine` over
exactly those lines and leaves an empty cross-chunk buffer. -/
theorem processChunk_encodeLines (parse : Str → Option StreamChunk)
    (ls : List Str) (c : CoreState) (h : ∀ l ∈ ls, '\n' ∉ l) :
    processChunk parse ⟨[], c⟩ (encodeLines ls) =
      ⟨[], ls.foldl (processLine parse) c⟩ := by
  rw [processChunk_eq_foldl_feedChar parse (encodeLines ls) ⟨[], c⟩ (by simp)]
  exact foldl_feedChar_encodeLines parse ls c h

/-! ## The pending-text invariant -/

theorem processLine_pendingText (parse : Str → Option StreamChunk)
    (c : CoreState) (l : Str) :
    pendingText (processLine parse c l) = pendingText c ++ lineContrib parse l := by
  simp only [processLine, lineContrib, pendingText]
  split
  · simp
  · split
    · simp
    · split
      · next hcon =>
        rw [hcon]
        simp
      · split
        · simp [List.append_assoc]
        · simp [List.append_assoc]

theorem foldl_processLine_pendingText (parse : Str → Option StreamChunk)
    (ls : List Str) (c : CoreState) :
    pendingText (ls.foldl (processLine parse) c) =
      pendingText c ++ (ls.map (lineContrib parse)).flatten := by
  induction ls generalizing c with
  | nil => simp
  | cons l ls ih =>
    rw [List.foldl_cons, ih, processLine_pendingText, List.map_cons,
      List.flatten_cons, List.append_assoc]

theorem finalFlush_fullResponse (c : CoreState) :
    (finalFlush c).fullResponse = pendingText c := by
  simp only [finalFlush, pendingText]
  split
  · next h => rw [h]; simp
  · rfl

theorem finalFlush_events (c : CoreState) :
    (finalFlush c).events =
      c.events ++ (if c.accumulatedChunks = [] then [] else [c.accumulatedChunks]) := by
  simp only [finalFlush]
  split
  · simp
  · rfl

/-- Master content lemma: the resolved `fullResponse` for a stream of
newline-terminated lines is the concatenation of the per-line
contributions, in order. -/
theorem runStream_lines_fullOf (parse : Str → Option StreamChunk)
    (ls : List Str) (h : ∀ l ∈ ls, '\n' ∉ l) :
    fullOf (runStream parse [encodeLines ls] false) =
      (ls.map (lineContrib parse)).flatten := by
  simp only [runStream, List.foldl_cons, List.foldl_nil]
  rw [show initState = (⟨[], initCore⟩ : AssemblyState) from rfl,
    processChunk_encodeLines parse ls initCore h]
  simp only [fullOf, finalFlush_fullResponse, foldl_processLine_pendingText]
  simp [pendingText, initCore]

/-! ## `fullResponse` is the concatenation of the emitted events -/

theorem processLine_events_flatten (parse : Str → Option StreamChunk)
    (c : CoreState) (l : Str) (h : c.fullResponse = c.events.flatten) :
    (processLine parse c l).fullResponse = (processLine parse c l).events.flatten := by
  simp only [processLine]
  split
  · exact h
  · split
    · exact h
    · split
      · exact h
      · split
        · simp [h]
        · exact h

theorem foldl_processLine_events_flatten (parse : Str → Option StreamChunk)
    (ls : List Str) (c : CoreState) (h : c.fullResponse = c.events.flatten) :
    (ls.foldl (processLine parse) c).fullResponse =
      (ls.foldl (processLine parse) c).events.flatten := by
  induction ls generalizing c with
  | nil => exact h
  | cons l ls ih =>
    rw [List.foldl_cons]
    exact ih (processLine parse c l) (processLine_events_flatten parse c l h)

theorem foldl_processChunk_events_flatten (parse : Str → Option StreamChunk)
    (chunks : List Str) (st : AssemblyState)
    (h : st.core.fullResponse = st.core.events.flatten) :
    (chunks.foldl (processChunk parse) st).core.fullResponse =
      (chunks.foldl (processChunk parse) st).core.events.flatten := by
  induction chunks generalizing st with
  | nil => exact h
  | cons c cs ih =>
    rw [List.foldl_cons]
    refine ih (processChunk parse st c) ?_
    simp only [processChunk]
    exact foldl_processLine_events_flatten parse _ st.core h

theorem finalFlush_events_flatten (c : CoreState)
    (h : c.fullResponse = c.events.flatten) :
    (finalFlush c).fullResponse = (finalFlush c).events.flatten := by
  simp only [finalFlush]
  split
  · exact h
  · simp [h]

/-! ## ASCII byte streams decode chunk-independently -/

theorem decodeUtf8_ascii {bs : List Nat} (h : ∀ b ∈ bs, b ≤ 0x7F) :
    decodeUtf8 bs = bs.map Char.ofNat := by
  induction bs with
  | nil => rfl
  | cons b rest ih =>
    have hb : b ≤ 0x7F := h b (List.mem_cons_self b rest)
    rw [decodeUtf8.eq_def]
    simp only [if_pos hb]
    rw [ih (fun x hx => h x (List.mem_cons_of_mem b hx)), List.map_cons]

theorem flatten_decode_singletons {bs : List Nat} (h : ∀ b ∈ bs, b ≤ 0x7F) :
    (bs.map (fun b => decodeUtf8 [b])).flatten = bs.map Char.ofNat := by
  induction bs with
  | nil => rfl
  | cons x xs ih =>
    have hble : ∀ y ∈ [x], y ≤ 0x7F := by
      intro y hy
      rw [List.mem_singleton] at hy
      rw [hy]
      exact h x (List.mem_cons_self x xs)
    have hx : decodeUtf8 [x] = [Char.ofNat x] := by
      rw [decodeUtf8_ascii hble]
      rfl
    simp only [List.map_cons, List.flatten_cons, hx,
      ih (fun y hy => h y (List.mem_cons_of_mem x hy)), List.singleton_append]

/-! ## Per-line facts used by the claims -/

theorem lineContrib_of_valid {parse : Str → Option StreamChunk} {l : Str}
    {d : StreamChunk} (h : validLine parse l d) :
    lineContrib parse l = contentOf d := by
  obtain ⟨-, h2, h3, h4⟩ := h
  simp only [lineContrib]
  rw [if_neg (not_or.mpr ⟨h2, h3⟩), h4]

theorem forall2_valid_no_nl {parse : Str → Option StreamChunk} {ls : List Str}
    {ds : List StreamChunk} (h : List.Forall₂ (validLine parse) ls ds) :
    ∀ l ∈ ls, '\n' ∉ l := by
  induction h with
  | nil => simp
  | cons hv _ ih =>
    intro l hl
    rcases List.mem_cons.mp hl with rfl | hl
    · exact hv.1
    · exact ih l hl

theorem forall2_valid_map {parse : Str → Option StreamChunk} {ls : List Str}
    {ds : List StreamChunk} (h : List.Forall₂ (validLine parse) ls ds) :
    ls.map (lineContrib parse) = ds.map contentOf := by
  induction h with
  | nil => rfl
  | cons hv _ ih => simp [lineContrib_of_valid hv, ih]

/-- The StreamChunk that `parseModel` extracts from `lineHi`. -/
def chunkHi : StreamChunk := ⟨[⟨some ("Hi".toList), none⟩]⟩

/-- The StreamChunk that `parseModel` extracts from `lineThere`. -/
def chunkThere : StreamChunk := ⟨[⟨some (" there".toList), some ("stop".toList)⟩]⟩

theorem valid_lineHi : validLine parseModel lineHi chunkHi :=
  ⟨by decide, by decide, by decide, by decide⟩

theorem valid_lineThere : validLine parseModel lineThere chunkThere :=
  ⟨by decide, by decide, by decide, by decide⟩

/-! ## The claims -/

/-- C1: for every sequence of well-formed DataRecord lines delivered to
`getChatCompletion` (under any chunking of the transmitted text), the
final accumulated text — the string the returned promise resolves with —
is the concatenation of the records' `delta.content` values in arrival
order, with no fragment reordered, lost, or duplicated. -/
theorem claim_C1_concat (parse : Str → Option StreamChunk)
    (ls : List Str) (ds : List StreamChunk) (chunks : List Str)
    (hvalid : List.Forall₂ (validLine parse) ls ds)
    (hchunks : chunksJoin chunks = encodeLines ls) :
    fullOf (runStream parse chunks false) = (ds.map contentOf).flatten := by
  rw [runStream_chunks_join parse chunks [encodeLines ls] false
    (by simpa [chunksJoin] using hchunks)]
  rw [runStream_lines_fullOf parse ls (forall2_valid_no_nl hvalid),
    forall2_valid_map hvalid]

/-- Witness for C1: the two-record `Hi` / `" there"` exchange, delivered
as one chunk, resolves to `"Hi there"`. -/
theorem claim_C1_witness :
    List.Forall₂ (validLine parseModel) [lineHi, lineThere] [chunkHi, chunkThere] ∧
    chunksJoin [encodeLines [lineHi, lineThere]] = encodeLines [lineHi, lineThere] ∧
    fullOf (runStream parseModel [encodeLines [lineHi, lineThere]] false) =
      (([chunkHi, chunkThere]).map contentOf).flatten := by
  have hv : List.Forall₂ (validLine parseModel) [lineHi, lineThere]
      [chunkHi, chunkThere] :=
    List.Forall₂.cons valid_lineHi (List.Forall₂.cons valid_lineThere List.Forall₂.nil)
  have hj : chunksJoin [encodeLines [lineHi, lineThere]] =
      encodeLines [lineHi, lineThere] := by
    simp [chunksJoin]
  exact ⟨hv, hj, claim_C1_concat parseModel [lineHi, lineThere] [chunkHi, chunkThere]
    [encodeLines [lineHi, lineThere]] hv hj⟩

/-- Counterexample to C2 as stated: a complete record line that follows
the `data: [DONE]` sentinel inside the same buffered chunk *is* processed
— its content `"Wow!"` reaches the accumulated text and an update
callback fires — because the source `continue`s past the sentinel instead
of stopping. -/
theorem claim_C2_counterexample :
    runStream parseModel [encodeLines [doneSentinel, lineWow]] false =
      .success ("Wow!".toList) [("Wow!".toList)] ∧ ("Wow!".toList : Str) ≠ [] := by
  refine ⟨by decide, by decide⟩

/-- C2 (amended): a line that trims to the sentinel `data: [DONE]` is
itself skipped — it contributes no text and triggers no callback — and
processing simply continues: the run over the remaining lines is
unchanged, as if the sentinel line were absent. -/
theorem claim_C2_amended (parse : Str → Option StreamChunk) (c : CoreState)
    (ls : List Str) (l : Str) (h : trimStr l = doneSentinel) :
    (l :: ls).foldl (processLine parse) c = ls.foldl (processLine parse) c := by
  have hid : processLine parse c l = c := by
    simp only [processLine, h]
    rw [if_pos (Or.inr trivial)]
  rw [List.foldl_cons, hid]

/-- Witness for C2 (amended): the sentinel line followed by `lineWow`. -/
theorem claim_C2_amended_witness :
    trimStr doneSentinel = doneSentinel ∧
    ([doneSentinel, lineWow]).foldl (processLine parseModel) initCore =
      ([lineWow]).foldl (processLine parseModel) initCore :=
  ⟨by decide, claim_C2_amended parseModel initCore [lineWow] doneSentinel (by decide)⟩

/-- C6: a line between two well-formed record lines on which the parse
throws is skipped without aborting the stream: the two valid groups'
contents appear in the final accumulated text contiguously and in order,
with nothing inserted between them. -/
theorem claim_C6_malformed_skipped (parse : Str → Option StreamChunk)
    (ls1 ls2 : List Str) (ds1 ds2 : List StreamChunk) (lb : Str)
    (h1 : List.Forall₂ (validLine parse) ls1 ds1)
    (h2 : List.Forall₂ (validLine parse) ls2 ds2)
    (hb1 : '\n' ∉ lb) (hb2 : trimStr lb ≠ []) (hb3 : trimStr lb ≠ doneSentinel)
    (hb4 : parse (dropDataTag (trimStr lb)) = none) :
    fullOf (runStream parse [encodeLines (ls1 ++ lb :: ls2)] false) =
      (ds1.map contentOf).flatten ++ (ds2.map contentOf).flatten := by
  have hnl : ∀ l ∈ ls1 ++ lb :: ls2, '\n' ∉ l := by
    intro l hl
    rcases List.mem_append.mp hl with hl | hl
    · exact forall2_valid_no_nl h1 l hl
    · rcases List.mem_cons.mp hl with rfl | hl
      · exact hb1
      · exact forall2_valid_no_nl h2 l hl
  rw [runStream_lines_fullOf parse _ hnl]
  have hlb : lineContrib parse lb = [] := by
    simp only [lineContrib]
    rw [if_neg (not_or.mpr ⟨hb2, hb3⟩), hb4]
  rw [List.map_append, List.flatten_append, List.map_cons, List.flatten_cons,
    forall2_valid_map h1, forall2_valid_map h2, hlb, List.nil_append]

/-- Witness for C6: `lineHi`, a malformed line, `lineThere`. -/
theorem claim_C6_witness :
    parseModel (dropDataTag (trimStr lineBad)) = none ∧
    fullOf (runStream parseModel [encodeLines ([lineHi] ++ lineBad :: [lineThere])] false) =
      (([chunkHi]).map contentOf).flatten ++ (([chunkThere]).map contentOf).flatten :=
  ⟨by decide,
    claim_C6_malformed_skipped parseModel [lineHi] [lineThere] [chunkHi] [chunkThere]
      lineBad (List.Forall₂.cons valid_lineHi List.Forall₂.nil)
      (List.Forall₂.cons valid_lineThere List.Forall₂.nil)
      (by decide) (by decide) (by decide) (by decide)⟩

set_option maxRecDepth 40000 in
/-- Counterexample to C3 as stated: a byte stream whose content is the
two-byte UTF-8 character U+00E9 yields `"é"` when delivered as a single
chunk but `"��"` when delivered one byte per chunk, because
each chunk is decoded independently (`decoder.decode(value)` without the
`stream` flag). -/
theorem claim_C3_counterexample :
    fullOf (runStreamBytes parseModel [accentLineBytes] false) ≠
      fullOf (runStreamBytes parseModel (accentLineBytes.map (fun b => [b])) false) := by
  decide

/-- C3 (amended): chunking invariance does hold whenever no multi-byte
UTF-8 sequence can straddle a chunk boundary — in particular for every
all-ASCII byte stream, delivery as a single chunk and delivery one byte
per chunk produce identical outcomes (same final text and same update
events). -/
theorem claim_C3_amended (parse : Str → Option StreamChunk) (bs : List Nat)
    (h : ∀ b ∈ bs, b ≤ 0x7F) :
    runStreamBytes parse [bs] false =
      runStreamBytes parse (bs.map (fun b => [b])) false := by
  simp only [runStreamBytes, List.map_map]
  apply runStream_chunks_join
  simp only [chunksJoin, List.map_cons, List.map_nil, List.flatten_cons,
    List.flatten_nil, List.append_nil]
  rw [decodeUtf8_ascii h]
  rw [show (List.map (decodeUtf8 ∘ fun b => [b]) bs).flatten =
    (List.map (fun b => decodeUtf8 [b]) bs).flatten from rfl]
  exact (flatten_decode_singletons h).symm

set_option maxRecDepth 40000 in
/-- Witness for C3 (amended): the all-ASCII `Hi` / `" there"` / `[DONE]`
byte stream. -/
theorem claim_C3_amended_witness :
    (∀ b ∈ asciiStreamBytes, b ≤ 0x7F) ∧
    runStreamBytes parseModel [asciiStreamBytes] false =
      runStreamBytes parseModel (asciiStreamBytes.map (fun b => [b])) false :=
  ⟨by decide, claim_C3_amended parseModel asciiStreamBytes (by decide)⟩

/-- Counterexample to C4 as stated: with the fragments
`"a","b","c","d","e"` the two update events are *not*
`"abcd"`, `"abcde"` — each `onChunk` call carries only the newly flushed
text, so the second carries `"e"`. -/
theorem claim_C4_counterexample :
    eventsOf (runStream parseModel [encodeLines fiveFragLines] false) ≠
      [("abcd".toList), ("abcde".toList)] := by
  decide

/-- C4 (amended): with flush threshold 4 and the five single-character
fragments `"a","b","c","d","e"` and no stop signal, exactly two update
events occur: the first flush carries `"abcd"` and the terminal flush
carries `"e"` — each update event carries only the newly flushed text,
not the cumulative snapshot — while the promise resolves with the
cumulative `"abcde"`. -/
theorem claim_C4_amended :
    runStream parseModel [encodeLines fiveFragLines] false =
      .success ("abcde".toList) [("abcd".toList), ("e".toList)] := by
  decide

/-- Counterexample to C5 as stated: the three-line `Hi` / `" there"` /
`[DONE]` stream does not produce the two update events `"Hi"` then
`"Hi there"`. -/
theorem claim_C5_counterexample :
    eventsOf (runStream parseModel [encodeLines [lineHi, lineThere, doneSentinel]] false) ≠
      [("Hi".toList), ("Hi there".toList)] := by
  decide

/-- C5 (amended): for the three-line stream (`Hi` with `finish_reason`
null, `" there"` with `finish_reason` `"stop"`, then `data: [DONE]`),
exactly one update event occurs, carrying `"Hi there"` — `"Hi"` alone is
below the 4-character threshold, so both fragments are flushed together —
and the promise then resolves (one successful completion) with
`"Hi there"`. -/
theorem claim_C5_amended :
    runStream parseModel [encodeLines [lineHi, lineThere, doneSentinel]] false =
      .success ("Hi there".toList) [("Hi there".toList)] := by
  decide

/-- Counterexample to C7 as stated: a record leaves `"Hi"` pending in the
accumulator; when the read then fails mid-stream, the promise rejects
with *no* update event at all — the pending text is not flushed and the
failure carries no partial text. -/
theorem claim_C7_counterexample :
    runStream parseModel [encodeLines [lineHi]] true =
      .failure .streamReadError [] ∧
    (([encodeLines [lineHi]]).foldl (processChunk parseModel) initState).core.accumulatedChunks =
      ("Hi".toList) := by
  refine ⟨by decide, by decide⟩

/-- C7 (amended): on a mid-stream read error no final flush happens:
fragments still in the pending buffer are dropped and the rejection adds
no further update, so the update events delivered before the error are
exactly a prefix of those a normally completed run would have delivered. -/
theorem claim_C7_amended (parse : Str → Option StreamChunk) (chunks : List Str) :
    ∃ t, eventsOf (runStream parse chunks true) ++ t =
      eventsOf (runStream parse chunks false) := by
  refine ⟨if (chunks.foldl (processChunk parse) initState).core.accumulatedChunks = []
    then [] else [(chunks.foldl (processChunk parse) initState).core.accumulatedChunks], ?_⟩
  have hL : eventsOf (runStream parse chunks true) =
      (chunks.foldl (processChunk parse) initState).core.events := rfl
  have hR : eventsOf (runStream parse chunks false) =
      (finalFlush (chunks.foldl (processChunk parse) initState).core).events := rfl
  rw [hL, hR, finalFlush_events]

/-- C8: a non-success HTTP status or a missing response body fails with
the corresponding distinct error before any fragment is produced: no
`onChunk` call happens and no text is accumulated. -/
theorem claim_C8_early_failure (parse : Str → Option StreamChunk)
    (resp : GroqResponse) (e : Bool)
    (h : resp.ok = false ∨ resp.hasBody = false) :
    getChatCompletion parse resp e =
      .failure (if resp.ok = false then .connectionError else .noResponseBody) [] := by
  rcases h with h | h
  · simp [getChatCompletion, h]
  · by_cases hok : resp.ok = false
    · simp [getChatCompletion, hok]
    · simp [getChatCompletion, hok, h]

/-- Witness for C8: a response with a non-success status. -/
theorem claim_C8_witness :
    (GroqResponse.mk false true [encodeLines [lineHi]]).ok = false ∧
    getChatCompletion parseModel (GroqResponse.mk false true [encodeLines [lineHi]]) false =
      .failure .connectionError [] := by
  refine ⟨rfl, ?_⟩
  have h := claim_C8_early_failure parseModel
    (GroqResponse.mk false true [encodeLines [lineHi]]) false (Or.inl rfl)
  simpa using h

/-- Counterexample to C9 as stated: with the non-greeting message
`"what is ML"` and a configured system prompt `" p"` carrying leading
whitespace, the system message sent upstream does not hold the configured
prompt verbatim — the `.map` over `[systemMessage, ...messages]` trims
the system message's content too, so `"p"` is sent. -/
theorem claim_C9_counterexample :
    buildApiMessages [⟨.user, ("what is ML".toList)⟩] ⟨some (" p".toList)⟩ ≠
      [⟨.system, (" p".toList)⟩, ⟨.user, ("what is ML".toList)⟩] := by
  decide

/-- C9 (amended): exactly one system message is prepended as the first
element: its content is `'Respond with a greeting.'` when the message
list is a single message starting (case-insensitively) with
hi/hello/hey/greetings/sup, and otherwise the *trimmed* configured system
prompt; it is followed by the caller's messages in order with their
content trimmed. -/
theorem claim_C9_amended (messages : List ChatMessage) (options : CompletionOptions) :
    buildApiMessages messages options =
      ⟨.system, if isGreetingMsg messages then greetingPrompt
                else trimStr (options.systemPrompt.getD defaultSystemPrompt)⟩ ::
        messages.map (fun m => ⟨m.role, trimStr m.content⟩) := by
  simp only [buildApiMessages, List.map_cons]
  congr 1
  rw [show (⟨Role.system, trimStr (if isGreetingMsg messages then greetingPrompt
      else options.systemPrompt.getD defaultSystemPrompt)⟩ : ChatMessage) =
    ⟨Role.system, if isGreetingMsg messages then trimStr greetingPrompt
      else trimStr (options.systemPrompt.getD defaultSystemPrompt)⟩ from by
    rw [apply_ite trimStr]]
  rw [show trimStr greetingPrompt = greetingPrompt from by decide]

/-- C10: `getCompletionSync` returns exactly the string the
`getChatCompletion` promise resolves with — the concatenation of the
`onChunk` arguments, in callback order, reproduces the resolved value. -/
theorem claim_C10_sync_refinement (parse : Str → Option StreamChunk)
    (resp : GroqResponse) (e : Bool) (full : Str) (evs : List Str)
    (h : getChatCompletion parse resp e = .success full evs) :
    getCompletionSync parse resp e = some full := by
  have hfr : full = evs.flatten := by
    by_cases h1 : resp.ok = false
    · rw [getChatCompletion, if_pos h1] at h
      exact (StreamOutcome.noConfusion h)
    · by_cases h2 : resp.hasBody = false
      · rw [getChatCompletion, if_neg h1, if_pos h2] at h
        exact (StreamOutcome.noConfusion h)
      · rw [getChatCompletion, if_neg h1, if_neg h2, runStream] at h
        by_cases he : e = true
        · rw [if_pos he] at h
          exact (StreamOutcome.noConfusion h)
        · rw [if_neg he] at h
          rw [StreamOutcome.success.injEq] at h
          obtain ⟨hA, hB⟩ := h
          rw [← hA, ← hB]
          exact finalFlush_events_flatten _
            (foldl_processChunk_events_flatten parse resp.chunks initState rfl)
  have hfold : ∀ (l : List Str) (a : Str), l.foldl (· ++ ·) a = a ++ l.flatten := by
    intro l
    induction l with
    | nil => intro a; simp
    | cons x xs ih => intro a; simp [ih, List.append_assoc]
  rw [getCompletionSync, h]
  show some (evs.foldl (· ++ ·) []) = some full
  rw [hfr, hfold, List.nil_append]

/-- Witness for C10: the concrete successful `Hi there` exchange. -/
theorem claim_C10_witness :
    getChatCompletion parseModel (GroqResponse.mk true true
        [encodeLines [lineHi, lineThere, doneSentinel]]) false =
      .success ("Hi there".toList) [("Hi there".toList)] ∧
    getCompletionSync parseModel (GroqResponse.mk true true
        [encodeLines [lineHi, lineThere, doneSentinel]]) false =
      some ("Hi there".toList) :=
  ⟨by decide,
    claim_C10_sync_refinement parseModel
      (GroqResponse.mk true true [encodeLines [lineHi, lineThere, doneSentinel]])
      false ("Hi there".toList) [("Hi there".toList)] (by decide)⟩

end Groq
